import Mathlib

set_option maxHeartbeats 1000000

/- Verification development for the result-processing and layer-management pipeline of
src/app.js (query normalization, tag classification, geometry resolution, layer store,
legend derivation, rendering orchestration). Strings are modelled as `List Char`,
JS numbers as `ℚ` extended with a NaN point, and the mutable `layers` object as an
association list with JS property-assignment semantics. -/

namespace GeoExplorer

/-! ## String machinery (JS string/regex operations used by fetchOverpass) -/

/-- JS whitespace as used by trim and the regex class \s (modelled by `Char.isWhitespace`). -/
def wsChar (c : Char) : Bool := c.isWhitespace

/-- `hasPref p s`: p is a prefix of s (JS `String.prototype.startsWith`). -/
def hasPref : List Char → List Char → Bool
  | [], _ => true
  | _ :: _, [] => false
  | p :: ps, c :: cs => p = c && hasPref ps cs

/-- `hasSub p s`: p occurs as a contiguous substring of s (JS `String.prototype.includes`). -/
def hasSub (p : List Char) : List Char → Bool
  | [] => hasPref p []
  | c :: cs => hasPref p (c :: cs) || hasSub p cs

/-- `hasSuffix p s`: p is a suffix of s (JS regex `$`-anchored match). -/
def hasSuffix (p s : List Char) : Bool := hasPref p.reverse s.reverse

/-- Drop a known suffix `p` from `s`. -/
def dropSuf (s p : List Char) : List Char := s.take (s.length - p.length)

/-- Replace the first occurrence of `pat` in `s` by `rep`
(JS `String.prototype.replace` with a string pattern). -/
def replFirst (pat rep : List Char) : List Char → List Char
  | [] => []
  | c :: cs =>
    if hasPref pat (c :: cs) then rep ++ (c :: cs).drop pat.length
    else c :: replFirst pat rep cs

/-- JS `String.prototype.trim`. -/
def jsTrim (s : List Char) : List Char :=
  ((s.dropWhile wsChar).reverse.dropWhile wsChar).reverse

/-- The `\s*\)` tail of the regex `/\);\s*\)/`: after zero or more whitespace characters
the next character is a closing parenthesis. -/
def afterWs : List Char → Bool
  | [] => false
  | c :: cs => if c = ')' then true else if wsChar c then afterWs cs else false

/-- The regex `/\);\s*\)/` matches at the head of the list. -/
def closeAt : List Char → Bool
  | c1 :: c2 :: rest => c1 = ')' && c2 = ';' && afterWs rest
  | _ => false

/-- `fullQuery.match(/\);\s*\)/)`: the regex matches somewhere in the string. -/
def hasClosePair : List Char → Bool
  | [] => false
  | c :: cs => closeAt (c :: cs) || hasClosePair cs

/-! ## Query normalizer (fetchOverpass, src/app.js lines 60-84) -/

def outJson : List Char := "[out:json]".toList

def timeoutPat : List Char := "[timeout:".toList

def timeoutFull : List Char := "[timeout:25]".toList

def outJsonT : List Char := "[out:json][timeout:25]".toList

def outBody : List Char := ";out body".toList

def outBodySemi : List Char := ";out body;".toList

def outGeom : List Char := ";out geom;".toList

def closeSemi : List Char := ");".toList

def outGeom500 : List Char := ");out geom 500;".toList

def outGeomTail : List Char := "out geom 500;".toList

/-- The string neither starts with whitespace nor is inspected further (used to show
trim is the identity on normalizer output). -/
def headOk (l : List Char) : Bool :=
  match l.head? with
  | some c => !wsChar c
  | none => true

/-- The string does not end with whitespace. -/
def endOk (l : List Char) : Bool :=
  match l.reverse.head? with
  | some c => !wsChar c
  | none => true

/-- fetchOverpass step (lines 67-71): prepend `[out:json][timeout:25];` when the query
does not start with `[out:json]`; otherwise, when no `[timeout:` is present, splice the
timeout into the existing directive via a first-occurrence replace. -/
def addDirective (q : List Char) : List Char :=
  if hasPref outJson q then
    (if hasSub timeoutPat q then q else replFirst outJson outJsonT q)
  else outJsonT ++ ';' :: q

/-- fetchOverpass step (line 75): `fullQuery.replace(/;out body;?$/g, ';out geom;')`. -/
def rewriteOutBody (q : List Char) : List Char :=
  if hasSuffix outBodySemi q then dropSuf q outBodySemi ++ outGeom
  else if hasSuffix outBody q then dropSuf q outBody ++ outGeom
  else q

/-- fetchOverpass step (lines 78-80): when `/\);\s*\)/` does not match, rewrite a final
`');'` to `');out geom 500;'`. -/
def appendLimit (q : List Char) : List Char :=
  if hasClosePair q then q
  else if hasSuffix closeSemi q then dropSuf q closeSemi ++ outGeom500
  else q

/-- The full query normalization performed by fetchOverpass before the network call
(src/app.js lines 64-80). -/
def normalizeQuery (q : List Char) : List Char :=
  appendLimit (rewriteOutBody (addDirective (jsTrim q)))

/-! ## Tag classifier and category taxonomy (src/app.js lines 143-214) -/

/-- An element's attribute mapping; a key maps to `none` when absent. -/
abbrev Tags := String → Option String

/-- getCategoryFromTags (src/app.js lines 143-184); `none` models a missing tags object. -/
def getCategoryFromTags : Option Tags → String
  | none => "poi"
  | some tags =>
    if tags "tourism" = some "museum" then "museum"
    else if tags "tourism" = some "hotel" then "hotel"
    else if tags "tourism" = some "hostel" then "hostel"
    else if tags "tourism" = some "viewpoint" then "viewpoint"
    else if tags "amenity" = some "cafe" then "cafe"
    else if tags "amenity" = some "restaurant" then "restaurant"
    else if tags "amenity" = some "hospital" then "hospital"
    else if tags "amenity" = some "school" then "school"
    else if tags "amenity" = some "pharmacy" then "pharmacy"
    else if tags "amenity" = some "library" then "library"
    else if tags "amenity" = some "bank" then "bank"
    else if tags "amenity" = some "bar" then "bar"
    else if tags "amenity" = some "university" then "university"
    else if tags "amenity" = some "parking" then "parking"
    else if tags "shop" = some "supermarket" then "supermarket"
    else if tags "shop" = some "bakery" then "bakery"
    else if tags "shop" = some "hairdresser" then "hairdresser"
    else if tags "leisure" = some "park" then "park"
    else if tags "leisure" = some "garden" then "garden"
    else if tags "leisure" = some "sports_centre" then "sports_centre"
    else if tags "leisure" = some "pitch" then "pitch"
    else if tags "leisure" = some "playground" then "playground"
    else if tags "leisure" = some "dog_park" then "dog_park"
    else if tags "historic" = some "monument" then "monument"
    else if tags "railway" = some "station" then "station"
    else "poi"

/-- Per-category display metadata (src/app.js lines 187-214). -/
structure CategoryInfo where
  color : String
  label : String
  tags : List String
deriving DecidableEq

/-- The fixed CATEGORIES table (src/app.js lines 187-214), in source order. -/
def CATEGORIES : List (String × CategoryInfo) := [
  ("restaurant", ⟨"#E76F51", "Restaurants", ["amenity=restaurant"]⟩),
  ("cafe", ⟨"#F4A261", "Cafes", ["amenity=cafe"]⟩),
  ("bar", ⟨"#E63946", "Bars", ["amenity=bar"]⟩),
  ("bakery", ⟨"#C19A6B", "Bakeries", ["shop=bakery"]⟩),
  ("school", ⟨"#3A86FF", "Schools", ["amenity=school"]⟩),
  ("university", ⟨"#0077B6", "Universities", ["amenity=university"]⟩),
  ("library", ⟨"#6B5B95", "Libraries", ["amenity=library"]⟩),
  ("museum", ⟨"#9D4EDD", "Museums", ["tourism=museum"]⟩),
  ("monument", ⟨"#9B59B6", "Monuments", ["historic=monument"]⟩),
  ("viewpoint", ⟨"#48CAE4", "Viewpoints", ["tourism=viewpoint"]⟩),
  ("park", ⟨"#2A9D8F", "Parks", ["leisure=park"]⟩),
  ("garden", ⟨"#52B788", "Gardens", ["leisure=garden"]⟩),
  ("dog_park", ⟨"#95D5B2", "Dog Parks", ["leisure=dog_park"]⟩),
  ("playground", ⟨"#FFC300", "Playgrounds", ["leisure=playground"]⟩),
  ("sports_centre", ⟨"#E63946", "Sports", ["leisure=sports_centre"]⟩),
  ("pitch", ⟨"#7FFFD4", "Pitches", ["leisure=pitch"]⟩),
  ("hospital", ⟨"#E85D75", "Hospitals", ["amenity=hospital"]⟩),
  ("pharmacy", ⟨"#06D6A0", "Pharmacies", ["amenity=pharmacy"]⟩),
  ("bank", ⟨"#FFB703", "Banks", ["amenity=bank"]⟩),
  ("supermarket", ⟨"#8338EC", "Supermarkets", ["shop=supermarket"]⟩),
  ("hairdresser", ⟨"#F72585", "Hairdressers", ["shop=hairdresser"]⟩),
  ("hotel", ⟨"#FB5607", "Hotels", ["tourism=hotel"]⟩),
  ("hostel", ⟨"#F77F00", "Hostels", ["tourism=hostel"]⟩),
  ("station", ⟨"#2C3E50", "Stations", ["railway=station"]⟩),
  ("parking", ⟨"#6C757D", "Parking", ["amenity=parking"]⟩),
  ("poi", ⟨"#ADB5BD", "Other POIs", []⟩)]

/-- The color lookup of renderData (line 591):
`CATEGORIES[category]?.color || CATEGORIES.poi.color`. -/
def categoryColor (cat : String) : String :=
  match CATEGORIES.lookup cat with
  | some info => info.color
  | none =>
    match CATEGORIES.lookup "poi" with
    | some p => p.color
    | none => ""

/-! ## Geometry resolver (getCentroid, src/app.js lines 608-634) -/

/-- A JS number that may be NaN (`0/0` arises for an empty outer ring). -/
inductive JSNum where
  | nan : JSNum
  | num : ℚ → JSNum
deriving DecidableEq

/-- JS division as it occurs in getCentroid: `sum/coords.length` with an empty ring is
`0/0 = NaN`; every other division is by a positive count. -/
def jsDiv (a : ℚ) (n : ℕ) : JSNum := if n = 0 then JSNum.nan else JSNum.num (a / n)

/-- GeoJSON geometry as consumed by getCentroid. Point/Polygon/MultiPolygon carry their
coordinates; any other geometry type matters only through its type name. -/
inductive Geometry where
  | point (lng lat : ℚ)
  | polygon (rings : List (List (ℚ × ℚ)))
  | multiPolygon (polys : List (List (List (ℚ × ℚ))))
  | other (typeName : String)
deriving DecidableEq

/-- getCentroid (src/app.js lines 608-634). For a Polygon, `geometry.coordinates[0]` is
the outer ring; for a MultiPolygon, `geometry.coordinates[0][0]` is the first polygon's
outer ring; any other type yields null. -/
def getCentroid : Geometry → Option (JSNum × JSNum)
  | Geometry.point lng lat => some (JSNum.num lng, JSNum.num lat)
  | Geometry.polygon rings =>
    let coords := rings.headD []
    some (jsDiv ((coords.map Prod.fst).sum) coords.length,
          jsDiv ((coords.map Prod.snd).sum) coords.length)
  | Geometry.multiPolygon polys =>
    let coords := (polys.headD []).headD []
    some (jsDiv ((coords.map Prod.fst).sum) coords.length,
          jsDiv ((coords.map Prod.snd).sum) coords.length)
  | Geometry.other _ => none

/-! ## Rendering pipeline and layer store (renderData, src/app.js lines 558-694) -/

/-- One GeoJSON feature as consumed by renderData: an optional geometry plus the tag
object resolved by `f.properties?.tags || f.properties || {}` (so never null). -/
structure Feature where
  geometry : Option Geometry
  tags : Tags

/-- A stored layer (src/app.js line 11 and lines 600-605). -/
structure Layer where
  markers : List (JSNum × JSNum)
  name : String
  category : String
  color : String
deriving DecidableEq

/-- The category detection loop of renderData (lines 579-587): scan at most the first 10
features; the first non-"poi" classification wins, otherwise "poi" stays. -/
def detectLoop : Nat → List Feature → String
  | _, [] => "poi"
  | 0, _ => "poi"
  | n + 1, f :: fs =>
    let cat := getCategoryFromTags (some f.tags)
    if cat ≠ "poi" then cat else detectLoop n fs

/-- One step of the marker-creation loop (lines 640-689), accumulating
(markers, pointCount, skippedCount). A feature without geometry, or whose centroid is
null, is skipped and counted; otherwise a marker is appended. -/
def markerStep (acc : List (JSNum × JSNum) × Nat × Nat) (f : Feature) :
    List (JSNum × JSNum) × Nat × Nat :=
  match f.geometry with
  | none => (acc.1, acc.2.1, acc.2.2 + 1)
  | some g =>
    match getCentroid g with
    | none => (acc.1, acc.2.1, acc.2.2 + 1)
    | some c => (acc.1 ++ [c], acc.2.1 + 1, acc.2.2)

/-- The data produced by one successful renderData call. -/
structure RenderResult where
  layer : Layer
  pointCount : Nat
  skippedCount : Nat
deriving DecidableEq

/-- renderData (src/app.js lines 558-694) restricted to its data effects: `none` for an
empty feature list ("No results found.", no mutation); otherwise the single new layer
with its markers and the two counters. -/
def renderData (features : List Feature) (placeName : String) : Option RenderResult :=
  if features.isEmpty then none
  else
    let category := detectLoop 10 features
    let color := categoryColor category
    let acc := features.foldl markerStep ([], 0, 0)
    some { layer := { markers := acc.1,
                      name := category ++ " (" ++ placeName ++ ")",
                      category := category, color := color },
           pointCount := acc.2.1, skippedCount := acc.2.2 }

/-- A feature the marker loop places: it has a geometry and getCentroid is non-null. -/
def placeableB (f : Feature) : Bool :=
  match f.geometry with
  | some g => (getCentroid g).isSome
  | none => false

/-- The layer identifier (line 596):
`${category}_${queryInfo.place_name || 'unknown'}_${Date.now()}`; the Date.now() value
is an input of the model. -/
def layerId (category : String) (placeName : Option String) (now : Nat) : String :=
  category ++ "_" ++ placeName.getD "unknown" ++ "_" ++ Nat.repr now

/-- JS object property assignment `layers[layerId] = ...`: overwrite when the key
already exists, otherwise append a new entry. -/
def insertLayer (ls : List (String × Layer)) (k : String) (v : Layer) :
    List (String × Layer) :=
  if (ls.map Prod.fst).contains k then
    ls.map (fun kv => if kv.1 = k then (k, v) else kv)
  else ls ++ [(k, v)]

/-- renderData's store mutation (lines 596-605): the new layer is inserted under the
identifier built from category, place and the current time. -/
def renderStore (ls : List (String × Layer)) (features : List Feature)
    (placeName : String) (now : Nat) : List (String × Layer) :=
  match renderData features placeName with
  | none => ls
  | some r => insertLayer ls (layerId r.layer.category (some placeName) now) r.layer

/-! ## Legend (initLegend and updateLegend, src/app.js lines 697-766) -/

/-- Per-category marker totals derived from the store (updateLegend, lines 734-737). -/
def countsByCategory (ls : List (String × Layer)) (cat : String) : Nat :=
  (ls.map Prod.snd).foldl
    (fun acc l => if l.category = cat then acc + l.markers.length else acc) 0

/-- The legend's category list (initLegend, lines 704-721): every CATEGORIES key in
table order, except "poi", which initLegend explicitly skips. -/
def legendCategories : List String :=
  (CATEGORIES.map Prod.fst).filter (fun k => k ≠ "poi")

/-- The legend after updateLegend (lines 740-757): per legend item its category, count,
and active flag (a positive count activates the item and shows the remove affordance). -/
def legendEntries (ls : List (String × Layer)) : List (String × Nat × Bool) :=
  legendCategories.map (fun c => (c, countsByCategory ls c, decide (0 < countsByCategory ls c)))

/-! ## User-visible completion report (send handler, src/app.js lines 792-828) -/

/-- The chat completion message of the send handler (line 823):
`Found ${geojson.features.length} results ✅`. -/
def foundMessage (n : Nat) : String := "Found " ++ Nat.repr n ++ " results ✅"

/-- The completion report is computed from the total feature count. -/
def sendReport (features : List Feature) : String := foundMessage features.length

/-! ## Spec-side definitions (stated from the specification's words, for refinement
claims; to be compared against the definitions above) -/

/-- Modelled from the spec (§4.2): the fixed ordered predicate list, grouped
tourism, amenity, shop, leisure, historic, railway. -/
def classifierRules : List ((String × String) × String) := [
  (("tourism", "museum"), "museum"),
  (("tourism", "hotel"), "hotel"),
  (("tourism", "hostel"), "hostel"),
  (("tourism", "viewpoint"), "viewpoint"),
  (("amenity", "cafe"), "cafe"),
  (("amenity", "restaurant"), "restaurant"),
  (("amenity", "hospital"), "hospital"),
  (("amenity", "school"), "school"),
  (("amenity", "pharmacy"), "pharmacy"),
  (("amenity", "library"), "library"),
  (("amenity", "bank"), "bank"),
  (("amenity", "bar"), "bar"),
  (("amenity", "university"), "university"),
  (("amenity", "parking"), "parking"),
  (("shop", "supermarket"), "supermarket"),
  (("shop", "bakery"), "bakery"),
  (("shop", "hairdresser"), "hairdresser"),
  (("leisure", "park"), "park"),
  (("leisure", "garden"), "garden"),
  (("leisure", "sports_centre"), "sports_centre"),
  (("leisure", "pitch"), "pitch"),
  (("leisure", "playground"), "playground"),
  (("leisure", "dog_park"), "dog_park"),
  (("historic", "monument"), "monument"),
  (("railway", "station"), "station")]

/-- Modelled from the spec (§4.2): evaluate the ordered predicate list, first match
wins, fallback "poi". -/
def firstMatch (t : Tags) : List ((String × String) × String) → String
  | [] => "poi"
  | ((k, v), cat) :: rest => if t k = some v then cat else firstMatch t rest

/-- Modelled from the spec (§4.6 step 2): classify the first min(10, length) elements
and take the first non-fallback category, else the fallback. -/
def specDetect (features : List Feature) : String :=
  (((features.take 10).map (fun f => getCategoryFromTags (some f.tags))).filter
    (fun c => c ≠ "poi")).headD "poi"

/-- Build a tag mapping from an association list (used for concrete test inputs). -/
def tagsOf (l : List (String × String)) : Tags := fun k => l.lookup k

/-- A concrete result set with 3 placeable features (Points) and 2 unplaceable ones
(LineStrings), used as test input. -/
def sampleFeatures : List Feature := [
  ⟨some (Geometry.point 1 1), tagsOf [("amenity", "cafe")]⟩,
  ⟨some (Geometry.other "LineString"), tagsOf []⟩,
  ⟨some (Geometry.point 2 2), tagsOf []⟩,
  ⟨some (Geometry.other "LineString"), tagsOf []⟩,
  ⟨some (Geometry.point 3 3), tagsOf []⟩]

/-- Decimal value of a digit character (parsing helper for `Nat.repr` strings). -/
def digitVal (c : Char) : ℕ := c.toNat - '0'.toNat

/-- Decimal value of a digit string (parsing helper for `Nat.repr` strings). -/
def reprVal (l : List Char) : ℕ := l.foldl (fun a c => 10 * a + digitVal c) 0

/-! ## General lemmas -/

theorem detectLoop_eq_take (n : ℕ) (fs : List Feature) :
    detectLoop n fs =
      (((fs.take n).map (fun f => getCategoryFromTags (some f.tags))).filter
        (fun c => c ≠ "poi")).headD "poi" := by
  induction fs generalizing n with
  | nil => cases n <;> rfl
  | cons f fs ih =>
    cases n with
    | zero => rfl
    | succ n =>
      simp only [detectLoop, List.take_succ_cons, List.map_cons, List.filter_cons]
      by_cases h : getCategoryFromTags (some f.tags) = "poi"
      · simp [h, ih n]
      · simp [h]

theorem firstMatch_out (t : Tags) :
    ∀ rules : List ((String × String) × String),
      firstMatch t rules = "poi" ∨ firstMatch t rules ∈ rules.map (fun r => r.2) := by
  intro rules
  induction rules with
  | nil => exact Or.inl rfl
  | cons r rest ih =>
    obtain ⟨⟨k, v⟩, cat⟩ := r
    simp only [firstMatch, List.map_cons]
    by_cases h : t k = some v
    · right; simp [h]
    · rcases ih with h2 | h2
      · left; simpa [h]
      · right; simp only [if_neg h]; exact List.mem_cons_of_mem _ h2

theorem markerLoop_spec (fs : List Feature) (ms : List (JSNum × JSNum)) (pc sc : ℕ) :
    fs.foldl markerStep (ms, pc, sc)
      = (ms ++ fs.filterMap (fun f => f.geometry.bind getCentroid),
         pc + (fs.filter placeableB).length,
         sc + (fs.filter (fun f => !placeableB f)).length) := by
  induction fs generalizing ms pc sc with
  | nil => simp
  | cons f fs ih =>
    rcases hg : f.geometry with _ | g
    · have hpl : placeableB f = false := by simp [placeableB, hg]
      simp only [List.foldl_cons, markerStep, hg, ih, List.filterMap_cons,
        List.filter_cons, hpl, Option.none_bind]
      simp
      omega
    · rcases hc : getCentroid g with _ | c
      · have hpl : placeableB f = false := by simp [placeableB, hg, hc]
        simp only [List.foldl_cons, markerStep, hg, hc, ih, List.filterMap_cons,
          List.filter_cons, hpl, Option.some_bind]
        simp [hc]
        omega
      · have hpl : placeableB f = true := by simp [placeableB, hg, hc]
        simp only [List.foldl_cons, markerStep, hg, hc, ih, List.filterMap_cons,
          List.filter_cons, hpl, Option.some_bind]
        simp [hc]
        omega

theorem hasPref_iff (p : List Char) : ∀ s : List Char, hasPref p s = true ↔ ∃ t, s = p ++ t := by
  induction p with
  | nil => intro s; simp [hasPref]
  | cons a p ih =>
    intro s
    cases s with
    | nil =>
      simp only [hasPref, List.cons_append, Bool.false_eq_true, false_iff]
      rintro ⟨t, h⟩
      cases h
    | cons c cs =>
      simp only [hasPref, Bool.and_eq_true, decide_eq_true_eq, ih cs, List.cons_append]
      constructor
      · rintro ⟨rfl, t, rfl⟩
        exact ⟨t, rfl⟩
      · rintro ⟨t, h⟩
        injection h with h1 h2
        exact ⟨h1.symm, t, h2⟩

theorem hasPref_refl (p : List Char) : hasPref p p = true :=
  (hasPref_iff p p).2 ⟨[], (List.append_nil p).symm⟩

theorem hasPref_append_of (p s t : List Char) (h : hasPref p s = true) :
    hasPref p (s ++ t) = true := by
  rw [hasPref_iff] at h ⊢
  obtain ⟨r, rfl⟩ := h
  exact ⟨r ++ t, by simp⟩

theorem hasSuffix_iff (p s : List Char) : hasSuffix p s = true ↔ ∃ t, s = t ++ p := by
  unfold hasSuffix
  rw [hasPref_iff]
  constructor
  · rintro ⟨t, h⟩
    refine ⟨t.reverse, ?_⟩
    have h2 := congrArg List.reverse h
    simpa using h2
  · rintro ⟨t, rfl⟩
    exact ⟨t.reverse, by simp⟩

theorem hasSuffix_append_self (p t : List Char) : hasSuffix p (t ++ p) = true :=
  (hasSuffix_iff p (t ++ p)).2 ⟨t, rfl⟩

theorem hasSub_iff (p : List Char) : ∀ s : List Char, hasSub p s = true ↔ ∃ u v, s = u ++ p ++ v := by
  intro s
  induction s with
  | nil =>
    simp only [hasSub, hasPref_iff]
    constructor
    · rintro ⟨t, h⟩
      exact ⟨[], t, by simpa using h⟩
    · rintro ⟨u, v, h⟩
      have h2 := h.symm
      simp only [List.append_assoc, List.append_eq_nil] at h2
      exact ⟨v, by simp [h2.1, h2.2.1, h2.2.2]⟩
  | cons c cs ih =>
    simp only [hasSub, Bool.or_eq_true, hasPref_iff, ih]
    constructor
    · rintro (⟨t, h⟩ | ⟨u, v, rfl⟩)
      · exact ⟨[], t, by simpa using h⟩
      · exact ⟨c :: u, v, rfl⟩
    · rintro ⟨u, v, h⟩
      cases u with
      | nil =>
        left
        exact ⟨v, by simpa using h⟩
      | cons a u' =>
        right
        rw [List.cons_append, List.cons_append] at h
        injection h with h1 h2
        exact ⟨u', v, by simpa using h2⟩

theorem hasSub_of_pref (p s : List Char) (h : hasPref p s = true) : hasSub p s = true := by
  cases s with
  | nil => exact h
  | cons c cs => simp [hasSub, h]

theorem hasSub_append_right (p s t : List Char) (h : hasSub p s = true) :
    hasSub p (s ++ t) = true := by
  rw [hasSub_iff] at h ⊢
  obtain ⟨u, v, rfl⟩ := h
  exact ⟨u, v ++ t, by simp⟩

theorem hasSub_append_left (p s t : List Char) (h : hasSub p s = true) :
    hasSub p (t ++ s) = true := by
  rw [hasSub_iff] at h ⊢
  obtain ⟨u, v, rfl⟩ := h
  exact ⟨t ++ u, v, by simp⟩

theorem head?_append_ne (x y : List Char) (h : x ≠ []) : (x ++ y).head? = x.head? := by
  cases x with
  | nil => exact absurd rfl h
  | cons a as => rfl

theorem dropSuf_append (t p : List Char) : dropSuf (t ++ p) p = t := by
  unfold dropSuf
  rw [List.length_append, Nat.add_sub_cancel]
  exact List.take_left t p

theorem replFirst_of_pref (pat rep s : List Char) (hne : pat ≠ []) (h : hasPref pat s = true) :
    replFirst pat rep s = rep ++ s.drop pat.length := by
  rw [hasPref_iff] at h
  obtain ⟨t, rfl⟩ := h
  cases pat with
  | nil => exact absurd rfl hne
  | cons a ps =>
    have hp : hasPref (a :: ps) (a :: (ps ++ t)) = true := by
      rw [← List.cons_append]
      exact hasPref_append_of _ _ _ (hasPref_refl (a :: ps))
    rw [List.cons_append]
    simp only [replFirst, hp, if_true]

theorem hasPref_long_append (p : List Char) : ∀ y z : List Char, p.length ≤ y.length →
    hasPref p (y ++ z) = hasPref p y := by
  induction p with
  | nil => intro y z _; rfl
  | cons a p ih =>
    intro y z h
    cases y with
    | nil => simp at h
    | cons c cs =>
      simp only [List.cons_append, hasPref]
      rw [show cs.append z = cs ++ z from rfl, ih cs z (by simpa using h)]

theorem hasSuffix_append_right (x a b : List Char) (h : x.length ≤ b.length) :
    hasSuffix x (a ++ b) = hasSuffix x b := by
  unfold hasSuffix
  rw [List.reverse_append]
  exact hasPref_long_append x.reverse b.reverse a.reverse (by simpa using h)

theorem hasSub_append_cases (p a b : List Char) (h : hasSub p (a ++ b) = true) :
    hasSub p a = true ∨ hasSub p b = true
  ∨ ∃ x y, p = x ++ y ∧ x ≠ [] ∧ y ≠ []
      ∧ hasSuffix x a = true ∧ hasPref y b = true := by
  rw [hasSub_iff] at h
  obtain ⟨u, v, huv⟩ := h
  rw [List.append_assoc] at huv
  rcases List.append_eq_append_iff.1 huv with ⟨w, hw1, hw2⟩ | ⟨w, hw1, hw2⟩
  · right; left
    rw [hasSub_iff]
    exact ⟨w, v, by rw [hw2, List.append_assoc]⟩
  · rcases List.append_eq_append_iff.1 hw2.symm with ⟨z, hz1, hz2⟩ | ⟨z, hz1, hz2⟩
    · cases hwe : w with
      | nil =>
        right; left
        rw [hasSub_iff]
        refine ⟨[], v, ?_⟩
        rw [hz2]
        rw [hwe] at hz1
        simp only [List.nil_append] at hz1
        rw [hz1]
        simp
      | cons w0 w' =>
        cases hze : z with
        | nil =>
          left
          rw [hasSub_iff]
          refine ⟨u, [], ?_⟩
          rw [hw1]
          rw [hze] at hz1
          simp only [List.append_nil] at hz1
          rw [hz1]
          simp
        | cons z0 z' =>
          right; right
          refine ⟨w, z, hz1, by rw [hwe]; exact List.cons_ne_nil _ _,
            by rw [hze]; exact List.cons_ne_nil _ _, ?_, ?_⟩
          · rw [hasSuffix_iff]
            exact ⟨u, hw1⟩
          · rw [hasPref_iff]
            exact ⟨v, hz2⟩
    · left
      rw [hasSub_iff]
      exact ⟨u, z, by rw [hw1, hz1, List.append_assoc]⟩

theorem hasSub_append_elim (p a b : List Char) (hb : hasSub p b = false)
    (hcl : ∀ k, k < p.length → 0 < k → hasPref (p.drop k) b = false)
    (h : hasSub p (a ++ b) = true) : hasSub p a = true := by
  rcases hasSub_append_cases p a b h with h1 | h1 | ⟨x, y, hxy, hx, hy, _, hpref⟩
  · exact h1
  · rw [h1] at hb
    cases hb
  · exfalso
    have hyd : y = p.drop x.length := by
      rw [hxy]
      exact (List.drop_left x y).symm
    have hk1 : 0 < x.length := List.length_pos.2 hx
    have hk2 : x.length < p.length := by
      rw [hxy, List.length_append]
      have := List.length_pos.2 hy
      omega
    have hfalse := hcl x.length hk2 hk1
    rw [← hyd, hpref] at hfalse
    cases hfalse

theorem hasSub_append_elim_right (p a b : List Char) (ha : hasSub p a = false)
    (hcl : ∀ k, k < p.length → 0 < k → hasSuffix (p.take k) a = false)
    (h : hasSub p (a ++ b) = true) : hasSub p b = true := by
  rcases hasSub_append_cases p a b h with h1 | h1 | ⟨x, y, hxy, hx, hy, hsuf, _⟩
  · rw [h1] at ha
    cases ha
  · exact h1
  · exfalso
    have hxd : x = p.take x.length := by
      rw [hxy]
      exact (List.take_left x y).symm
    have hk1 : 0 < x.length := List.length_pos.2 hx
    have hk2 : x.length < p.length := by
      rw [hxy, List.length_append]
      have := List.length_pos.2 hy
      omega
    have hfalse := hcl x.length hk2 hk1
    rw [← hxd, hsuf] at hfalse
    cases hfalse

theorem hasPref_of_append_clash (p t s : List Char) (c : Char)
    (h : hasPref p (t ++ s) = true) (hhead : s.head? = some c) (hc : c ∉ p) :
    hasPref p t = true := by
  rw [hasPref_iff] at h
  obtain ⟨r, hr⟩ := h
  rcases List.append_eq_append_iff.1 hr with ⟨w, hw1, hw2⟩ | ⟨w, hw1, hw2⟩
  · cases w with
    | nil =>
      rw [hasPref_iff]
      refine ⟨[], ?_⟩
      rw [hw1]
      simp
    | cons d w' =>
      exfalso
      rw [hw2, List.cons_append] at hhead
      simp only [List.head?_cons, Option.some.injEq] at hhead
      apply hc
      rw [hw1, hhead]
      simp
  · rw [hasPref_iff]
    exact ⟨w, hw1⟩

theorem dropWhile_head_not (q : Char → Bool) :
    ∀ (l : List Char) (c : Char), (l.dropWhile q).head? = some c → q c = false := by
  intro l
  induction l with
  | nil =>
    intro c h
    cases h
  | cons a as ih =>
    intro c h
    by_cases hq : q a = true
    · rw [List.dropWhile_cons, if_pos hq] at h
      exact ih c h
    · rw [List.dropWhile_cons, if_neg hq] at h
      simp only [List.head?_cons, Option.some.injEq] at h
      rw [← h]
      exact Bool.eq_false_iff.mpr hq

theorem jsTrim_pref (s : List Char) :
    s.dropWhile wsChar = jsTrim s ++ ((s.dropWhile wsChar).reverse.takeWhile wsChar).reverse := by
  conv_lhs => rw [← List.reverse_reverse (s.dropWhile wsChar),
    ← List.takeWhile_append_dropWhile wsChar (s.dropWhile wsChar).reverse]
  rw [List.reverse_append]
  rfl

theorem jsTrim_head_not_ws (s : List Char) (c : Char)
    (h : (jsTrim s).head? = some c) : wsChar c = false := by
  apply dropWhile_head_not wsChar s c
  rw [jsTrim_pref s]
  cases hj : jsTrim s with
  | nil => rw [hj] at h; cases h
  | cons d rest =>
    rw [hj] at h
    simp only [List.head?_cons, Option.some.injEq] at h
    rw [List.cons_append, ← h]
    rfl

theorem jsTrim_last_not_ws (s : List Char) (c : Char)
    (h : (jsTrim s).reverse.head? = some c) : wsChar c = false := by
  rw [jsTrim, List.reverse_reverse] at h
  exact dropWhile_head_not wsChar _ c h

theorem headOk_jsTrim (s : List Char) : headOk (jsTrim s) = true := by
  unfold headOk
  cases hj : (jsTrim s).head? with
  | none => rfl
  | some c =>
    have := jsTrim_head_not_ws s c hj
    simp [this]

theorem endOk_jsTrim (s : List Char) : endOk (jsTrim s) = true := by
  unfold endOk
  cases hj : (jsTrim s).reverse.head? with
  | none => rfl
  | some c =>
    have := jsTrim_last_not_ws s c hj
    simp [this]

theorem jsTrim_eq_self (s : List Char) (h1 : headOk s = true) (h2 : endOk s = true) :
    jsTrim s = s := by
  have hd : s.dropWhile wsChar = s := by
    cases s with
    | nil => rfl
    | cons a as =>
      have hws : wsChar a = false := by
        unfold headOk at h1
        simp only [List.head?_cons] at h1
        simpa using h1
      rw [List.dropWhile_cons, if_neg (by simp [hws])]
  rw [jsTrim, hd]
  have hr : s.reverse.dropWhile wsChar = s.reverse := by
    cases hs : s.reverse with
    | nil => rfl
    | cons a as =>
      have hws : wsChar a = false := by
        unfold endOk at h2
        rw [hs] at h2
        simp only [List.head?_cons] at h2
        simpa using h2
      rw [List.dropWhile_cons, if_neg (by simp [hws])]
  rw [hr, List.reverse_reverse]

theorem headOk_of_pref (p s : List Char) (hp : hasPref p s = true)
    (h : headOk p = true) (hne : p ≠ []) : headOk s = true := by
  rw [hasPref_iff] at hp
  obtain ⟨t, rfl⟩ := hp
  cases p with
  | nil => exact absurd rfl hne
  | cons a ps =>
    unfold headOk at h ⊢
    simpa using h

theorem endOk_append (t b : List Char) (hb : endOk b = true) (hne : b ≠ []) :
    endOk (t ++ b) = true := by
  unfold endOk at hb ⊢
  rw [List.reverse_append, head?_append_ne]
  · exact hb
  · simpa using hne

theorem endOk_drop (l : List Char) (n : ℕ) (h : endOk l = true) :
    endOk (l.drop n) = true := by
  cases hd : l.drop n with
  | nil => rfl
  | cons a as =>
    have hne : l.drop n ≠ [] := by rw [hd]; exact List.cons_ne_nil _ _
    have hh : l.reverse.head? = (l.drop n).reverse.head? := by
      conv_lhs => rw [← List.take_append_drop n l]
      rw [List.reverse_append, head?_append_ne]
      simpa using hne
    unfold endOk at h ⊢
    rw [hd] at hh
    rw [← hh]
    exact h

theorem afterWs_app (a b : List Char) :
    afterWs (a ++ b) = (afterWs a || (a.all wsChar && afterWs b)) := by
  induction a with
  | nil => simp [afterWs]
  | cons c cs ih =>
    simp only [List.cons_append, afterWs, List.all_cons]
    by_cases h1 : c = ')'
    · simp [h1]
    · by_cases h2 : wsChar c = true
      · simp [h1, h2, ih, Bool.and_assoc]
      · simp [h1, h2]

theorem closeAt_app_tail (l : List Char) :
    closeAt (l ++ outGeomTail) = closeAt l := by
  match l with
  | [] => decide
  | [c] =>
    show closeAt (c :: outGeomTail) = false
    rw [show outGeomTail = 'o' :: ("ut geom 500;").toList from rfl]
    show (decide (c = ')') && decide ('o' = ';') && afterWs (("ut geom 500;").toList)) = false
    simp
  | c1 :: c2 :: r =>
    show (decide (c1 = ')') && decide (c2 = ';') && afterWs (r ++ outGeomTail))
      = (decide (c1 = ')') && decide (c2 = ';') && afterWs r)
    rw [afterWs_app, show afterWs outGeomTail = false from rfl]
    simp

theorem hasClosePair_app_tail (a : List Char) :
    hasClosePair (a ++ outGeomTail) = hasClosePair a := by
  induction a with
  | nil => decide
  | cons c cs ih =>
    calc hasClosePair ((c :: cs) ++ outGeomTail)
        = (closeAt ((c :: cs) ++ outGeomTail) || hasClosePair (cs ++ outGeomTail)) := rfl
      _ = (closeAt (c :: cs) || hasClosePair cs) := by rw [closeAt_app_tail, ih]
      _ = hasClosePair (c :: cs) := rfl

theorem addDirective_pref_sub (A : List Char) :
    hasPref outJson (addDirective A) = true
  ∧ hasSub timeoutPat (addDirective A) = true := by
  unfold addDirective
  by_cases h1 : hasPref outJson A = true
  · rw [if_pos h1]
    by_cases h2 : hasSub timeoutPat A = true
    · rw [if_pos h2]
      exact ⟨h1, h2⟩
    · rw [if_neg h2]
      rw [replFirst_of_pref outJson outJsonT A (by decide) h1]
      constructor
      · rw [hasPref_iff]
        refine ⟨("[timeout:25]").toList ++ A.drop outJson.length, ?_⟩
        rw [show outJsonT = outJson ++ ("[timeout:25]").toList from rfl, List.append_assoc]
      · exact hasSub_append_right _ _ _ (by decide)
  · rw [if_neg h1]
    constructor
    · rw [hasPref_iff]
      refine ⟨("[timeout:25]").toList ++ ';' :: A, ?_⟩
      rw [show outJsonT = outJson ++ ("[timeout:25]").toList from rfl, List.append_assoc]
    · exact hasSub_append_right _ _ _ (by decide)

theorem endOk_addDirective (q : List Char) : endOk (addDirective (jsTrim q)) = true := by
  unfold addDirective
  by_cases h1 : hasPref outJson (jsTrim q) = true
  · rw [if_pos h1]
    by_cases h2 : hasSub timeoutPat (jsTrim q) = true
    · rw [if_pos h2]
      exact endOk_jsTrim q
    · rw [if_neg h2]
      rw [replFirst_of_pref outJson outJsonT (jsTrim q) (by decide) h1]
      cases hd : (jsTrim q).drop outJson.length with
      | nil => rw [List.append_nil]; decide
      | cons a as =>
        rw [← hd]
        exact endOk_append _ _ (endOk_drop _ _ (endOk_jsTrim q)) (by rw [hd]; exact List.cons_ne_nil _ _)
  · rw [if_neg h1]
    cases ht : jsTrim q with
    | nil => decide
    | cons a as =>
      rw [← ht, show outJsonT ++ ';' :: jsTrim q = outJsonT ++ ([';'] ++ jsTrim q) from rfl,
        ← List.append_assoc]
      exact endOk_append _ _ (endOk_jsTrim q) (by rw [ht]; exact List.cons_ne_nil _ _)

theorem rewriteOutBody_cases (B : List Char) :
    (hasSuffix outBodySemi B = false ∧ hasSuffix outBody B = false ∧ rewriteOutBody B = B)
  ∨ (∃ t2, B = t2 ++ outBodySemi ∧ rewriteOutBody B = t2 ++ outGeom)
  ∨ (∃ t2, B = t2 ++ outBody ∧ rewriteOutBody B = t2 ++ outGeom) := by
  unfold rewriteOutBody
  by_cases h1 : hasSuffix outBodySemi B = true
  · rw [if_pos h1]
    obtain ⟨t2, rfl⟩ := (hasSuffix_iff _ _).1 h1
    right; left
    exact ⟨t2, rfl, by rw [dropSuf_append]⟩
  · rw [if_neg h1]
    by_cases h2 : hasSuffix outBody B = true
    · rw [if_pos h2]
      obtain ⟨t2, rfl⟩ := (hasSuffix_iff _ _).1 h2
      right; right
      exact ⟨t2, rfl, by rw [dropSuf_append]⟩
    · rw [if_neg h2]
      exact Or.inl ⟨by simpa using h1, by simpa using h2, rfl⟩

theorem appendLimit_cases (R : List Char) :
    (hasClosePair R = true ∧ appendLimit R = R)
  ∨ (hasClosePair R = false ∧ hasSuffix closeSemi R = false ∧ appendLimit R = R)
  ∨ (hasClosePair R = false ∧ ∃ t2, R = t2 ++ closeSemi
      ∧ appendLimit R = R ++ outGeomTail) := by
  unfold appendLimit
  by_cases h1 : hasClosePair R = true
  · rw [if_pos h1]
    exact Or.inl ⟨h1, rfl⟩
  · rw [if_neg h1]
    by_cases h2 : hasSuffix closeSemi R = true
    · rw [if_pos h2]
      obtain ⟨t2, rfl⟩ := (hasSuffix_iff _ _).1 h2
      right; right
      refine ⟨by simpa using h1, t2, rfl, ?_⟩
      rw [dropSuf_append,
        show outGeom500 = closeSemi ++ outGeomTail from rfl, ← List.append_assoc]
    · rw [if_neg h2]
      exact Or.inr (Or.inl ⟨by simpa using h1, by simpa using h2, rfl⟩)

theorem rewriteOutBody_id_of (R0 : List Char) (h1 : hasSuffix outBodySemi R0 = false)
    (h2 : hasSuffix outBody R0 = false) : rewriteOutBody R0 = R0 := by
  unfold rewriteOutBody
  rw [if_neg (by simp [h1]), if_neg (by simp [h2])]

theorem appendLimit_id_of (R0 : List Char) (h1 : hasClosePair R0 = false)
    (h2 : hasSuffix closeSemi R0 = false) : appendLimit R0 = R0 := by
  unfold appendLimit
  rw [if_neg (by simp [h1]), if_neg (by simp [h2])]

theorem normalizeQuery_invariants (q : List Char) :
    hasPref outJson (normalizeQuery q) = true
  ∧ hasSub timeoutPat (normalizeQuery q) = true
  ∧ endOk (normalizeQuery q) = true
  ∧ rewriteOutBody (normalizeQuery q) = normalizeQuery q
  ∧ appendLimit (normalizeQuery q) = normalizeQuery q := by
  have hB := addDirective_pref_sub (jsTrim q)
  have hBend := endOk_addDirective q
  have hRfacts : hasPref outJson (rewriteOutBody (addDirective (jsTrim q))) = true
      ∧ hasSub timeoutPat (rewriteOutBody (addDirective (jsTrim q))) = true
      ∧ endOk (rewriteOutBody (addDirective (jsTrim q))) = true
      ∧ hasSuffix outBodySemi (rewriteOutBody (addDirective (jsTrim q))) = false
      ∧ hasSuffix outBody (rewriteOutBody (addDirective (jsTrim q))) = false := by
    rcases rewriteOutBody_cases (addDirective (jsTrim q)) with
      ⟨hb1, hb2, hR⟩ | ⟨t2, hBt, hR⟩ | ⟨t2, hBt, hR⟩
    · rw [hR]
      exact ⟨hB.1, hB.2, hBend, hb1, hb2⟩
    · rw [hR]
      rw [hBt] at hB
      refine ⟨?_, ?_, ?_, ?_, ?_⟩
      · exact hasPref_append_of _ _ _
          (hasPref_of_append_clash outJson t2 outBodySemi ';' hB.1 rfl (by decide))
      · exact hasSub_append_right _ _ _
          (hasSub_append_elim timeoutPat t2 outBodySemi (by decide) (by decide) hB.2)
      · exact endOk_append _ _ (by decide) (by decide)
      · rw [hasSuffix_append_right _ _ _ (by decide)]
        decide
      · rw [hasSuffix_append_right _ _ _ (by decide)]
        decide
    · rw [hR]
      rw [hBt] at hB
      refine ⟨?_, ?_, ?_, ?_, ?_⟩
      · exact hasPref_append_of _ _ _
          (hasPref_of_append_clash outJson t2 outBody ';' hB.1 rfl (by decide))
      · exact hasSub_append_right _ _ _
          (hasSub_append_elim timeoutPat t2 outBody (by decide) (by decide) hB.2)
      · exact endOk_append _ _ (by decide) (by decide)
      · rw [hasSuffix_append_right _ _ _ (by decide)]
        decide
      · rw [hasSuffix_append_right _ _ _ (by decide)]
        decide
  rcases appendLimit_cases (rewriteOutBody (addDirective (jsTrim q))) with
    ⟨hcp, hP⟩ | ⟨hcp, hcs, hP⟩ | ⟨hcp, t2, hRt, hP⟩
  · have hPn : normalizeQuery q = rewriteOutBody (addDirective (jsTrim q)) := hP
    rw [hPn]
    exact ⟨hRfacts.1, hRfacts.2.1, hRfacts.2.2.1,
      rewriteOutBody_id_of _ hRfacts.2.2.2.1 hRfacts.2.2.2.2, hP⟩
  · have hPn : normalizeQuery q = rewriteOutBody (addDirective (jsTrim q)) := hP
    rw [hPn]
    exact ⟨hRfacts.1, hRfacts.2.1, hRfacts.2.2.1,
      rewriteOutBody_id_of _ hRfacts.2.2.2.1 hRfacts.2.2.2.2,
      appendLimit_id_of _ hcp hcs⟩
  · have hPn : normalizeQuery q
        = rewriteOutBody (addDirective (jsTrim q)) ++ outGeomTail := hP
    rw [hPn]
    have hs1 : hasSuffix outBodySemi
        (rewriteOutBody (addDirective (jsTrim q)) ++ outGeomTail) = false := by
      rw [hasSuffix_append_right _ _ _ (by decide)]
      decide
    have hs2 : hasSuffix outBody
        (rewriteOutBody (addDirective (jsTrim q)) ++ outGeomTail) = false := by
      rw [hasSuffix_append_right _ _ _ (by decide)]
      decide
    have hc : hasClosePair
        (rewriteOutBody (addDirective (jsTrim q)) ++ outGeomTail) = false := by
      rw [hasClosePair_app_tail]
      exact hcp
    have hs3 : hasSuffix closeSemi
        (rewriteOutBody (addDirective (jsTrim q)) ++ outGeomTail) = false := by
      rw [hasSuffix_append_right _ _ _ (by decide)]
      decide
    exact ⟨hasPref_append_of _ _ _ hRfacts.1, hasSub_append_right _ _ _ hRfacts.2.1,
      endOk_append _ _ (by decide) (by decide),
      rewriteOutBody_id_of _ hs1 hs2, appendLimit_id_of _ hc hs3⟩

theorem jsTrim_infix (s : List Char) : ∃ u v, s = u ++ (jsTrim s ++ v) := by
  refine ⟨s.takeWhile wsChar, ((s.dropWhile wsChar).reverse.takeWhile wsChar).reverse, ?_⟩
  conv_lhs => rw [← List.takeWhile_append_dropWhile wsChar s, jsTrim_pref s]

theorem pack_append (s b : List Char)
    (hb : hasSub outJson b = false)
    (hcl : ∀ k, k < outJson.length → 0 < k → hasPref (outJson.drop k) b = false)
    (h1 : hasPref outJson s = true)
    (h3 : hasSub outJson (s.drop 1) = false) :
    hasPref outJson (s ++ b) = true ∧ hasSub outJson ((s ++ b).drop 1) = false := by
  refine ⟨hasPref_append_of _ _ _ h1, ?_⟩
  obtain ⟨w, hw⟩ := (hasPref_iff outJson s).1 h1
  subst hw
  cases hx : hasSub outJson (((outJson ++ w) ++ b).drop 1) with
  | false => rfl
  | true =>
    exfalso
    rw [show ((outJson ++ w) ++ b) = '[' :: ((("out:json]").toList ++ w) ++ b) from rfl] at hx
    simp only [List.drop_succ_cons, List.drop_zero] at hx
    have h5 := hasSub_append_elim outJson _ b hb hcl hx
    rw [show (outJson ++ w) = '[' :: (("out:json]").toList ++ w) from rfl] at h3
    simp only [List.drop_succ_cons, List.drop_zero] at h3
    rw [h5] at h3
    cases h3

theorem pack_strip (t2 suf : List Char)
    (hhead : suf.head? = some ';')
    (hb1 : hasSub timeoutFull suf = false)
    (hcl1 : ∀ k, k < timeoutFull.length → 0 < k → hasPref (timeoutFull.drop k) suf = false)
    (h1 : hasPref outJson (t2 ++ suf) = true)
    (h2 : hasSub timeoutFull (t2 ++ suf) = true)
    (h3 : hasSub outJson ((t2 ++ suf).drop 1) = false) :
    hasPref outJson (t2 ++ outGeom) = true
  ∧ hasSub timeoutFull (t2 ++ outGeom) = true
  ∧ hasSub outJson ((t2 ++ outGeom).drop 1) = false := by
  have hpt2 : hasPref outJson t2 = true :=
    hasPref_of_append_clash outJson t2 suf ';' h1 hhead (by decide)
  have hsub2 : hasSub timeoutFull (t2 ++ outGeom) = true :=
    hasSub_append_right _ _ _ (hasSub_append_elim timeoutFull t2 suf hb1 hcl1 h2)
  have ht2d : hasSub outJson (t2.drop 1) = false := by
    obtain ⟨w, hw⟩ := (hasPref_iff outJson t2).1 hpt2
    subst hw
    cases hx : hasSub outJson ((outJson ++ w).drop 1) with
    | false => rfl
    | true =>
      exfalso
      rw [show (outJson ++ w) = '[' :: (("out:json]").toList ++ w) from rfl] at hx
      simp only [List.drop_succ_cons, List.drop_zero] at hx
      have h5 := hasSub_append_right outJson _ suf hx
      rw [show ((outJson ++ w) ++ suf)
        = '[' :: ((("out:json]").toList ++ w) ++ suf) from rfl] at h3
      simp only [List.drop_succ_cons, List.drop_zero] at h3
      rw [h5] at h3
      cases h3
  have hp := pack_append t2 outGeom (by decide) (by decide) hpt2 ht2d
  exact ⟨hp.1, hsub2, hp.2⟩

theorem pack_rewrite (s : List Char)
    (h1 : hasPref outJson s = true) (h2 : hasSub timeoutFull s = true)
    (h3 : hasSub outJson (s.drop 1) = false) :
    hasPref outJson (rewriteOutBody s) = true
  ∧ hasSub timeoutFull (rewriteOutBody s) = true
  ∧ hasSub outJson ((rewriteOutBody s).drop 1) = false := by
  rcases rewriteOutBody_cases s with ⟨_, _, hR⟩ | ⟨t2, hst, hR⟩ | ⟨t2, hst, hR⟩
  · rw [hR]
    exact ⟨h1, h2, h3⟩
  · rw [hR]
    subst hst
    exact pack_strip t2 outBodySemi rfl (by decide) (by decide) h1 h2 h3
  · rw [hR]
    subst hst
    exact pack_strip t2 outBody rfl (by decide) (by decide) h1 h2 h3

theorem filterMap_centroid_length (fs : List Feature) :
    (fs.filterMap (fun f => f.geometry.bind getCentroid)).length
      = (fs.filter placeableB).length := by
  induction fs with
  | nil => rfl
  | cons f fs ih =>
    rcases hg : f.geometry with _ | g
    · simp [List.filterMap_cons, List.filter_cons, placeableB, hg, ih]
    · rcases hc : getCentroid g with _ | cpt <;>
        simp [List.filterMap_cons, List.filter_cons, placeableB, hg, hc, ih]

theorem toDigitsCore_app (b f : ℕ) : ∀ (n : ℕ) (l : List Char),
    Nat.toDigitsCore b f n l = Nat.toDigitsCore b f n [] ++ l := by
  induction f with
  | zero => intro n l; rfl
  | succ f ih =>
    intro n l
    simp only [Nat.toDigitsCore]
    by_cases h : n / b = 0
    · simp [h]
    · simp only [h, if_false]
      rw [ih (n / b) (Nat.digitChar (n % b) :: l), ih (n / b) [Nat.digitChar (n % b)]]
      simp

theorem reprVal_snoc (l : List Char) (c : Char) :
    reprVal (l ++ [c]) = 10 * reprVal l + digitVal c := by
  simp [reprVal, List.foldl_append]

theorem digitVal_digitChar (n : ℕ) (h : n < 10) :
    digitVal (Nat.digitChar n) = n := by
  interval_cases n <;> rfl

theorem reprVal_toDigitsCore : ∀ f n : ℕ, n < f →
    reprVal (Nat.toDigitsCore 10 f n []) = n := by
  intro f
  induction f with
  | zero => intro n h; omega
  | succ f ih =>
    intro n h
    simp only [Nat.toDigitsCore]
    by_cases h0 : n / 10 = 0
    · simp only [h0, if_true]
      have hn : n < 10 := by omega
      rw [show reprVal [Nat.digitChar (n % 10)] = digitVal (Nat.digitChar (n % 10)) by
        simp [reprVal]]
      rw [digitVal_digitChar _ (Nat.mod_lt _ (by norm_num))]
      omega
    · simp only [h0, if_false]
      rw [toDigitsCore_app, reprVal_snoc, ih (n / 10) (by omega),
        digitVal_digitChar _ (Nat.mod_lt _ (by norm_num))]
      omega

theorem toDigits_ten_inj {m n : ℕ} (h : Nat.toDigits 10 m = Nat.toDigits 10 n) :
    m = n := by
  have hm := reprVal_toDigitsCore (m + 1) m (Nat.lt_succ_self m)
  have hn := reprVal_toDigitsCore (n + 1) n (Nat.lt_succ_self n)
  have hc : reprVal (Nat.toDigitsCore 10 (m + 1) m [])
      = reprVal (Nat.toDigitsCore 10 (n + 1) n []) := congrArg reprVal h
  rw [hm, hn] at hc
  exact hc

theorem insertLayer_key_mem (ls : List (String × Layer)) (k : String) (v : Layer) :
    k ∈ (insertLayer ls k v).map Prod.fst := by
  unfold insertLayer
  by_cases h : (ls.map Prod.fst).contains k = true
  · rw [if_pos h]
    have hk : k ∈ ls.map Prod.fst := by simpa using h
    obtain ⟨kv, hkv, hfst⟩ := List.mem_map.1 hk
    have hmem : (if kv.1 = k then (k, v) else kv)
        ∈ ls.map (fun kv => if kv.1 = k then (k, v) else kv) :=
      List.mem_map_of_mem _ hkv
    rw [if_pos hfst] at hmem
    exact List.mem_map.2 ⟨(k, v), hmem, rfl⟩
  · rw [if_neg h]
    simp

theorem insertLayer_length_of_mem (ls : List (String × Layer)) (k : String) (v : Layer)
    (h : k ∈ ls.map Prod.fst) : (insertLayer ls k v).length = ls.length := by
  unfold insertLayer
  rw [if_pos (by simpa using h), List.length_map]

theorem insertLayer_length_of_fresh (ls : List (String × Layer)) (k : String) (v : Layer)
    (h : k ∉ ls.map Prod.fst) : (insertLayer ls k v).length = ls.length + 1 := by
  unfold insertLayer
  rw [if_neg (by simpa using h)]
  simp

/-! ## Claim theorems -/

/-- C6: the geometry resolver returns a Point's coordinate unchanged; for a Polygon with
a non-empty outer ring it returns the vertex average of the outer ring (holes ignored),
so outer ring [[0,0],[0,2],[2,2],[2,0]] yields [1,1]; for a MultiPolygon it applies the
same rule to the first polygon's outer ring only; any other geometry type yields null. -/
theorem c6_centroid_cases :
    (∀ lng lat : ℚ, getCentroid (Geometry.point lng lat) = some (JSNum.num lng, JSNum.num lat))
  ∧ (∀ (outer : List (ℚ × ℚ)) (holes : List (List (ℚ × ℚ))), outer ≠ [] →
      getCentroid (Geometry.polygon (outer :: holes)) =
        some (JSNum.num (((outer.map Prod.fst).sum) / outer.length),
              JSNum.num (((outer.map Prod.snd).sum) / outer.length)))
  ∧ (∀ (outer : List (ℚ × ℚ)) (rings : List (List (ℚ × ℚ)))
      (ps : List (List (List (ℚ × ℚ)))), outer ≠ [] →
      getCentroid (Geometry.multiPolygon ((outer :: rings) :: ps)) =
        some (JSNum.num (((outer.map Prod.fst).sum) / outer.length),
              JSNum.num (((outer.map Prod.snd).sum) / outer.length)))
  ∧ (∀ t : String, getCentroid (Geometry.other t) = none)
  ∧ getCentroid (Geometry.polygon [[(0, 0), (0, 2), (2, 2), (2, 0)]]) =
      some (JSNum.num 1, JSNum.num 1) := by
  refine ⟨fun lng lat => rfl, ?_, ?_, fun t => rfl, by norm_num [getCentroid, jsDiv]⟩
  · intro outer holes h
    have hl : outer.length ≠ 0 := by simpa using h
    simp [getCentroid, jsDiv, hl]
  · intro outer rings ps h
    have hl : outer.length ≠ 0 := by simpa using h
    simp [getCentroid, jsDiv, hl]

/-- Witness for C6 at the spec's concrete polygon. -/
theorem c6_centroid_cases_witness :
    ([((0 : ℚ), (0 : ℚ)), (0, 2), (2, 2), (2, 0)] ≠ ([] : List (ℚ × ℚ)))
  ∧ getCentroid (Geometry.polygon [[(0, 0), (0, 2), (2, 2), (2, 0)]]) =
      some (JSNum.num ((([((0 : ℚ), (0 : ℚ)), (0, 2), (2, 2), (2, 0)].map Prod.fst).sum)
              / ([((0 : ℚ), (0 : ℚ)), (0, 2), (2, 2), (2, 0)].length)),
            JSNum.num ((([((0 : ℚ), (0 : ℚ)), (0, 2), (2, 2), (2, 0)].map Prod.snd).sum)
              / ([((0 : ℚ), (0 : ℚ)), (0, 2), (2, 2), (2, 0)].length))) :=
  ⟨by decide, c6_centroid_cases.2.1 [(0, 0), (0, 2), (2, 2), (2, 0)] [] (by decide)⟩

/-- C7: the tag classifier returns "poi" for an absent mapping, otherwise evaluates the
fixed ordered predicate list (tourism, amenity, shop, leisure, historic, railway) and
returns the first match, falling back to "poi"; in particular tourism=museum beats
amenity=cafe, {amenity: cafe} gives "cafe", and the empty mapping gives "poi". -/
theorem c7_classifier_order :
    getCategoryFromTags none = "poi"
  ∧ (∀ t : Tags, getCategoryFromTags (some t) = firstMatch t classifierRules)
  ∧ getCategoryFromTags (some (tagsOf [("tourism", "museum"), ("amenity", "cafe")])) = "museum"
  ∧ getCategoryFromTags (some (tagsOf [("amenity", "cafe")])) = "cafe"
  ∧ getCategoryFromTags (some (tagsOf [])) = "poi" :=
  ⟨rfl, fun t => rfl, by decide, by decide, by decide⟩

/-- C10: every output of the tag classifier is a key of the CATEGORIES table, so the
per-layer color lookup always succeeds and the fallback branch is unreachable. -/
theorem c10_classifier_in_categories :
    ∀ t : Option Tags, ∃ info : CategoryInfo,
      CATEGORIES.lookup (getCategoryFromTags t) = some info
      ∧ categoryColor (getCategoryFromTags t) = info.color := by
  intro t
  cases t with
  | none => exact ⟨_, rfl, rfl⟩
  | some tags =>
    rw [show getCategoryFromTags (some tags) = firstMatch tags classifierRules from rfl]
    rcases firstMatch_out tags classifierRules with h | h
    · rw [h]; exact ⟨_, rfl, rfl⟩
    · revert h
      generalize firstMatch tags classifierRules = s
      intro h
      simp only [classifierRules, List.map_cons, List.map_nil, List.mem_cons,
        List.not_mem_nil, or_false] at h
      rcases h with h | h | h | h | h | h | h | h | h | h | h | h | h | h | h | h | h |
        h | h | h | h | h | h | h | h <;> rw [h] <;> exact ⟨_, rfl, rfl⟩

/-- C9: for a non-empty result set, the created layer's category is the classification
of the first element among the first min(10, length) whose classification is not "poi",
else "poi"; elements beyond the scanned prefix are ignored. -/
theorem c9_detect_prefix :
    ∀ (fs : List Feature) (place : String), fs ≠ [] →
      ∃ r : RenderResult, renderData fs place = some r
        ∧ r.layer.category = specDetect fs
        ∧ detectLoop 10 fs = specDetect fs := by
  intro fs place h
  cases fs with
  | nil => exact absurd rfl h
  | cons f fs' =>
    exact ⟨_, rfl, detectLoop_eq_take 10 (f :: fs'), detectLoop_eq_take 10 (f :: fs')⟩

/-- Witness for C9 on the concrete sample result set. -/
theorem c9_detect_prefix_witness :
    ∃ r : RenderResult, renderData sampleFeatures "Lisbon" = some r
      ∧ r.layer.category = specDetect sampleFeatures
      ∧ detectLoop 10 sampleFeatures = specDetect sampleFeatures :=
  c9_detect_prefix sampleFeatures "Lisbon" (by simp [sampleFeatures])

/-- C4 (code evaluation at the failing input): a Polygon whose outer ring is empty gets
centroid [NaN, NaN] (0/0), which is not null, so renderData counts the element as placed
(pointCount 1, skippedCount 0) and stores a NaN marker instead of skipping it. -/
theorem c4_empty_ring_not_skipped :
    getCentroid (Geometry.polygon [[]]) = some (JSNum.nan, JSNum.nan)
  ∧ (∃ r : RenderResult,
      renderData [⟨some (Geometry.polygon [[]]), tagsOf []⟩] "Rome" = some r
      ∧ r.pointCount = 1 ∧ r.skippedCount = 0
      ∧ r.layer.markers = [(JSNum.nan, JSNum.nan)]) :=
  ⟨rfl, ⟨_, rfl, rfl, rfl, rfl⟩⟩

/-- C5 counterexample: the fixed taxonomy contains "poi" but the legend never does —
initLegend explicitly skips the fallback category, so the legend omits it instead of
rendering it inactive with count 0. -/
theorem c5_poi_omitted :
    ("poi" ∈ CATEGORIES.map Prod.fst)
  ∧ "poi" ∉ legendCategories
  ∧ "poi" ∉ (legendEntries []).map Prod.fst :=
  ⟨by decide, by decide, by decide⟩

/-- C5 as amended: after any store state, the legend has exactly one entry per category
of the fixed taxonomy except "poi"; each entry carries the derived count and is active
iff its count is positive (zero-count categories stay present and inactive). -/
theorem c5_amended_legend (ls : List (String × Layer)) :
    (legendEntries ls).map Prod.fst = legendCategories
  ∧ (∀ c : String, c ∈ legendCategories ↔ (c ∈ CATEGORIES.map Prod.fst ∧ c ≠ "poi"))
  ∧ (∀ (c : String) (cnt : ℕ) (act : Bool), (c, cnt, act) ∈ legendEntries ls →
      cnt = countsByCategory ls c ∧ (act = true ↔ 0 < cnt)) := by
  refine ⟨?_, ?_, ?_⟩
  · simp only [legendEntries, List.map_map]
    rw [show (Prod.fst ∘ fun c =>
      (c, countsByCategory ls c, decide (0 < countsByCategory ls c))) = id from rfl]
    exact List.map_id _
  · intro c
    simp [legendCategories, List.mem_filter]
  · intro c cnt act hmem
    simp only [legendEntries, List.mem_map] at hmem
    obtain ⟨c', _, heq⟩ := hmem
    cases heq
    exact ⟨rfl, by simp⟩

/-- Witness for C5 as amended: a store with one cafe layer of two markers produces the
legend entry ("cafe", 2, active). -/
theorem c5_amended_legend_witness :
    (("cafe", 2, true) ∈ legendEntries
      [("cafe_Madrid_1", ⟨[(JSNum.num 1, JSNum.num 1), (JSNum.num 2, JSNum.num 2)],
        "cafe (Madrid)", "cafe", "#F4A261"⟩)])
  ∧ (2 = countsByCategory
      [("cafe_Madrid_1", ⟨[(JSNum.num 1, JSNum.num 1), (JSNum.num 2, JSNum.num 2)],
        "cafe (Madrid)", "cafe", "#F4A261"⟩)] "cafe"
     ∧ (true = true ↔ 0 < 2)) :=
  ⟨by decide,
   (c5_amended_legend
      [("cafe_Madrid_1", ⟨[(JSNum.num 1, JSNum.num 1), (JSNum.num 2, JSNum.num 2)],
        "cafe (Madrid)", "cafe", "#F4A261"⟩)]).2.2 "cafe" 2 true (by decide)⟩

/-- C2 counterexample: two successive layer creations for the same category and place
within the same timestamp resolution produce the same identifier, and the second store
insertion overwrites the first, leaving a single layer entry. -/
theorem c2_same_timestamp_collision :
    layerId "cafe" (some "Madrid") 1730000000000 = layerId "cafe" (some "Madrid") 1730000000000
  ∧ (insertLayer (insertLayer []
        (layerId "cafe" (some "Madrid") 1730000000000)
        ⟨[(JSNum.num 1, JSNum.num 1)], "cafe (Madrid)", "cafe", "#F4A261"⟩)
        (layerId "cafe" (some "Madrid") 1730000000000)
        ⟨[(JSNum.num 2, JSNum.num 2)], "cafe (Madrid)", "cafe", "#F4A261"⟩).length = 1 :=
  ⟨rfl, by decide⟩

/-- C1 counterexample: on a result set with 3 placeable and 2 unplaceable elements the
user-visible completion report states the total element count ("Found 5 results"), not
the count of elements successfully placed. -/
theorem c1_report_states_total :
    ((sampleFeatures.filter placeableB).length = 3)
  ∧ (sampleFeatures.length = 5)
  ∧ sendReport sampleFeatures = foundMessage 5
  ∧ sendReport sampleFeatures ≠ foundMessage ((sampleFeatures.filter placeableB).length) :=
  ⟨rfl, rfl, rfl, by decide⟩

/-- C2 as amended: two layer identifiers for the same category and place are distinct
exactly when the Date.now() values differ; within the same timestamp resolution the
identifiers coincide and the second store insertion overwrites the first instead of
adding a layer. -/
theorem c2_amended_ids (c : String) (p : Option String) (t₁ t₂ : ℕ)
    (ls : List (String × Layer)) (L₁ L₂ : Layer) :
    (t₁ ≠ t₂ → layerId c p t₁ ≠ layerId c p t₂)
  ∧ (t₁ = t₂ →
      layerId c p t₁ = layerId c p t₂
      ∧ (insertLayer (insertLayer ls (layerId c p t₁) L₁) (layerId c p t₂) L₂).length
          = (insertLayer ls (layerId c p t₁) L₁).length) := by
  constructor
  · intro hne heq
    apply hne
    have h := congrArg String.data heq
    simp only [layerId, String.data_append, List.append_assoc] at h
    have h1 := List.append_cancel_left h
    have h2 := List.append_cancel_left h1
    have h3 := List.append_cancel_left h2
    have h4 := List.append_cancel_left h3
    exact toDigits_ten_inj h4
  · intro heq
    subst heq
    exact ⟨rfl, insertLayer_length_of_mem _ _ _ (insertLayer_key_mem ls (layerId c p t₁) L₁)⟩

/-- Witness for C2 as amended at concrete timestamps 1 ≠ 2 and 3 = 3. -/
theorem c2_amended_ids_witness :
    (layerId "cafe" (some "Madrid") 1 ≠ layerId "cafe" (some "Madrid") 2)
  ∧ (layerId "cafe" (some "Madrid") 3 = layerId "cafe" (some "Madrid") 3
     ∧ (insertLayer (insertLayer []
          (layerId "cafe" (some "Madrid") 3) ⟨[], "cafe (Madrid)", "cafe", "#F4A261"⟩)
          (layerId "cafe" (some "Madrid") 3) ⟨[], "cafe (Madrid)", "cafe", "#F4A261"⟩).length
        = (insertLayer []
            (layerId "cafe" (some "Madrid") 3) ⟨[], "cafe (Madrid)", "cafe", "#F4A261"⟩).length) :=
  ⟨(c2_amended_ids "cafe" (some "Madrid") 1 2 [] ⟨[], "cafe (Madrid)", "cafe", "#F4A261"⟩
      ⟨[], "cafe (Madrid)", "cafe", "#F4A261"⟩).1 (by decide),
   (c2_amended_ids "cafe" (some "Madrid") 3 3 [] ⟨[], "cafe (Madrid)", "cafe", "#F4A261"⟩
      ⟨[], "cafe (Madrid)", "cafe", "#F4A261"⟩).2 rfl⟩

/-- C1 as amended: for a non-empty result set with both placeable and unplaceable
elements, renderData creates exactly one new layer whose marker collection has one
marker per placeable element, counts the unplaceable ones as skipped, while the
user-visible completion report states the total element count, not the placed count
(the placed count only reaches the console log). -/
theorem c1_amended_render (fs : List Feature) (place : String)
    (ls : List (String × Layer)) (now : ℕ)
    (hp : ∃ f ∈ fs, placeableB f = true) (hu : ∃ f ∈ fs, placeableB f = false)
    (hfresh : layerId (detectLoop 10 fs) (some place) now ∉ ls.map Prod.fst) :
    ∃ r : RenderResult, renderData fs place = some r
      ∧ (renderStore ls fs place now).length = ls.length + 1
      ∧ r.layer.markers.length = (fs.filter placeableB).length
      ∧ r.pointCount = (fs.filter placeableB).length
      ∧ r.skippedCount = (fs.filter (fun f => !placeableB f)).length
      ∧ sendReport fs = foundMessage fs.length := by
  obtain ⟨f0, hf0, _⟩ := hp
  cases fs with
  | nil => exact absurd hf0 (List.not_mem_nil f0)
  | cons f fs' =>
    have hml := markerLoop_spec (f :: fs') [] 0 0
    refine ⟨_, rfl, ?_, ?_, ?_, ?_, rfl⟩
    · exact insertLayer_length_of_fresh ls _ _ hfresh
    · show ((f :: fs').foldl markerStep ([], 0, 0)).1.length = _
      rw [hml]
      simpa using filterMap_centroid_length (f :: fs')
    · show ((f :: fs').foldl markerStep ([], 0, 0)).2.1 = _
      rw [hml]
      simp
    · show ((f :: fs').foldl markerStep ([], 0, 0)).2.2 = _
      rw [hml]
      simp

/-- Witness for C1 as amended on the concrete sample result set (3 placeable,
2 unplaceable). -/
theorem c1_amended_render_witness :
    ∃ r : RenderResult, renderData sampleFeatures "Madrid" = some r
      ∧ (renderStore [] sampleFeatures "Madrid" 0).length
          = ([] : List (String × Layer)).length + 1
      ∧ r.layer.markers.length = (sampleFeatures.filter placeableB).length
      ∧ r.pointCount = (sampleFeatures.filter placeableB).length
      ∧ r.skippedCount = (sampleFeatures.filter (fun f => !placeableB f)).length
      ∧ sendReport sampleFeatures = foundMessage sampleFeatures.length :=
  c1_amended_render sampleFeatures "Madrid" [] 0
    ⟨⟨some (Geometry.point 1 1), tagsOf [("amenity", "cafe")]⟩,
      List.mem_cons_self _ _, rfl⟩
    ⟨⟨some (Geometry.other "LineString"), tagsOf []⟩,
      List.mem_cons_of_mem _ (List.mem_cons_self _ _), rfl⟩
    (by simp)

/-- C8: the query normalization is idempotent on its own outputs: for every raw query
string, normalizing the already-normalized query yields it unchanged. -/
theorem c8_normalize_idempotent (q : List Char) :
    normalizeQuery (normalizeQuery q) = normalizeQuery q := by
  obtain ⟨h1, h2, h3, h4, h5⟩ := normalizeQuery_invariants q
  have htrim : jsTrim (normalizeQuery q) = normalizeQuery q :=
    jsTrim_eq_self _ (headOk_of_pref outJson _ h1 (by decide) (by decide)) h3
  show appendLimit (rewriteOutBody (addDirective (jsTrim (normalizeQuery q))))
    = normalizeQuery q
  rw [htrim]
  have hadd : addDirective (normalizeQuery q) = normalizeQuery q := by
    unfold addDirective
    rw [if_pos h1, if_pos h2]
  rw [hadd, h4, h5]

/-- C3 counterexample: the raw query "node(1);out;" lacks an output-format directive,
yet its normalization does not end in the bounded-output statement — the 500-element cap
is only appended to queries whose final statement is ');'. -/
theorem c3_no_bound_appended :
    hasSub outJson (("node(1);out;").toList) = false
  ∧ normalizeQuery (("node(1);out;").toList)
      = ("[out:json][timeout:25];node(1);out;").toList
  ∧ hasSuffix outGeom500 (normalizeQuery (("node(1);out;").toList)) = false :=
  ⟨by decide, by decide, by decide⟩

/-- C3 as amended: for every raw query lacking an output-format directive, the
normalized query starts with the directive, contains the timeout sub-clause
[timeout:25], contains no second directive after its first character, and ends in the
bounded-output statement ');out geom 500;' exactly when the rewritten query ends in ');'
while the close-pair pattern is absent. -/
theorem c3_amended_normalize (q : List Char) (h : hasSub outJson q = false) :
    hasPref outJson (normalizeQuery q) = true
  ∧ hasSub timeoutFull (normalizeQuery q) = true
  ∧ hasSub outJson ((normalizeQuery q).drop 1) = false
  ∧ (hasClosePair (rewriteOutBody (addDirective (jsTrim q))) = false →
     hasSuffix closeSemi (rewriteOutBody (addDirective (jsTrim q))) = true →
     hasSuffix outGeom500 (normalizeQuery q) = true) := by
  have hA : hasSub outJson (jsTrim q) = false := by
    cases hx : hasSub outJson (jsTrim q) with
    | false => rfl
    | true =>
      exfalso
      obtain ⟨u, v, hq⟩ := jsTrim_infix q
      have h5 := hasSub_append_left outJson _ u (hasSub_append_right outJson _ v hx)
      rw [← hq] at h5
      rw [h5] at h
      cases h
  have hpA : ¬ hasPref outJson (jsTrim q) = true := by
    intro hp
    rw [hasSub_of_pref _ _ hp] at hA
    cases hA
  have hBdef : addDirective (jsTrim q) = outJsonT ++ ';' :: jsTrim q := by
    unfold addDirective
    rw [if_neg hpA]
  have hQ1 : hasPref outJson (addDirective (jsTrim q)) = true := (addDirective_pref_sub _).1
  have hQ2 : hasSub timeoutFull (addDirective (jsTrim q)) = true := by
    rw [hBdef]
    exact hasSub_append_right _ _ _ (by decide)
  have hQ3 : hasSub outJson ((addDirective (jsTrim q)).drop 1) = false := by
    rw [hBdef]
    rw [show outJsonT ++ ';' :: jsTrim q
      = '[' :: ((("out:json][timeout:25]").toList ++ [';']) ++ jsTrim q) from rfl]
    simp only [List.drop_succ_cons, List.drop_zero]
    cases hx : hasSub outJson ((("out:json][timeout:25]").toList ++ [';']) ++ jsTrim q) with
    | false => rfl
    | true =>
      exfalso
      have h5 := hasSub_append_elim_right outJson _ (jsTrim q) (by decide) (by decide) hx
      rw [h5] at hA
      cases hA
  have hQR := pack_rewrite (addDirective (jsTrim q)) hQ1 hQ2 hQ3
  rcases appendLimit_cases (rewriteOutBody (addDirective (jsTrim q))) with
    ⟨hcp, hP⟩ | ⟨hcp, hcs, hP⟩ | ⟨hcp, t2, hRt, hP⟩
  · have hPn : normalizeQuery q = rewriteOutBody (addDirective (jsTrim q)) := hP
    rw [hPn]
    refine ⟨hQR.1, hQR.2.1, hQR.2.2, ?_⟩
    intro hc1 _
    rw [hcp] at hc1
    cases hc1
  · have hPn : normalizeQuery q = rewriteOutBody (addDirective (jsTrim q)) := hP
    rw [hPn]
    refine ⟨hQR.1, hQR.2.1, hQR.2.2, ?_⟩
    intro _ hc2
    rw [hcs] at hc2
    cases hc2
  · have hPn : normalizeQuery q
        = rewriteOutBody (addDirective (jsTrim q)) ++ outGeomTail := hP
    rw [hPn]
    have hp := pack_append (rewriteOutBody (addDirective (jsTrim q))) outGeomTail
      (by decide) (by decide) hQR.1 hQR.2.2
    refine ⟨hp.1, hasSub_append_right _ _ _ hQR.2.1, hp.2, ?_⟩
    intro _ _
    rw [hRt, List.append_assoc, show closeSemi ++ outGeomTail = outGeom500 from rfl]
    exact hasSuffix_append_self _ _

/-- Witness for C3 as amended on the concrete query "node(1);", where the bounded-output
statement does get appended. -/
theorem c3_amended_normalize_witness :
    hasSub outJson (("node(1);").toList) = false
  ∧ (hasPref outJson (normalizeQuery (("node(1);").toList)) = true
     ∧ hasSub timeoutFull (normalizeQuery (("node(1);").toList)) = true
     ∧ hasSub outJson ((normalizeQuery (("node(1);").toList)).drop 1) = false
     ∧ (hasClosePair (rewriteOutBody (addDirective (jsTrim (("node(1);").toList)))) = false →
        hasSuffix closeSemi (rewriteOutBody (addDirective (jsTrim (("node(1);").toList)))) = true →
        hasSuffix outGeom500 (normalizeQuery (("node(1);").toList)) = true)) :=
  ⟨by decide, c3_amended_normalize (("node(1);").toList) (by decide)⟩

end GeoExplorer
